import Mathlib

/-!
Verification of the size-targeting image compression engine
(`backend/app/compress.py`, `backend/app/models.py`).

The codec (Pillow) is external to the core: it is modelled as a
deterministic encode oracle carried by the decoded-image descriptor.
Byte strings are lists of byte values; the Python float arithmetic on
the fixed tenth-step scale factors and on the 5% / 50% thresholds is
embedded as exact rational arithmetic over `Nat` (scale factors are
numerators over the fixed denominator 10, `int(x)` on nonnegative
values is the rational floor, i.e. `Nat` division; `d < t * 0.05`
becomes `20 * d < t`, `t / c < 0.5` becomes `2 * t < c`).
-/

/-- Byte strings, modelled as lists of byte values. -/
abbrev Bytes := List Nat

/-- The working image handed to the encoder at one scale: either the decoded
original (`img.copy()` at scale 1.0 keeps the original pixels) or a Lanczos
resize of it to the given dimensions (`img.resize(...)`, deterministic). -/
inductive WorkingImg
  | original
  | resized (w h : Nat)

/-- Decoded image descriptor: what `Image.open` exposes of the input, plus the
deterministic encode oracle standing for `convert_image_to_bytes` applied to
this image (or one of its resizes).  `encode working fmt quality stripFlag`
is the byte output of saving the working image in format `fmt` at the given
quality with the given metadata-stripping flag. -/
structure ImgInfo where
  width : Nat
  height : Nat
  mode : String
  transparencyInfo : Bool
  format : Option String
  encode : WorkingImg → String → Nat → Bool → Bytes

/-- `img.format or "UNKNOWN"`: Python `or` falls through on `None` and on the
empty string. -/
def originalFormat (img : ImgInfo) : String :=
  match img.format with
  | none => "UNKNOWN"
  | some f => if f = "" then "UNKNOWN" else f

/-- Python `str.upper()` restricted to ASCII, which covers every format
name this program handles.  (`String.toUpper` itself does not reduce in the
kernel, so the map is written on the character list directly.) -/
def upperChar (c : Char) : Char :=
  if ('a' ≤ c ∧ c ≤ 'z') then Char.ofNat (c.toNat - 32) else c

/-- `s.upper()` as the program applies it to format names. -/
def pyUpper (s : String) : String :=
  ⟨s.data.map upperChar⟩

/-- Embedding of `choose_output_format` (compress.py lines 7-45).  The image
argument is split into its mode string and the palette-transparency flag.
`compression_ratio < 0.5` with the `current_size = 0 -> ratio 1` guard is the
exact condition `0 < current_size and 2 * target_bytes < current_size`. -/
def choose_output_format (mode : String) (transparencyInfo : Bool)
    (original_format : String) (target_bytes current_size : Nat)
    (requested_format : String) : String × List String :=
  if requested_format ≠ "auto" then (pyUpper requested_format, [])
  else
    let has_transparency := mode = "RGBA" ∨ mode = "LA" ∨ (mode = "P" ∧ transparencyInfo = true)
    if 0 < current_size ∧ 2 * target_bytes < current_size then
      if has_transparency then
        (("WEBP"), ["Image has transparency. Using WebP for lossy compression."])
      else (("WEBP"), [])
    else if pyUpper original_format = "JPEG" ∨ pyUpper original_format = "JPG" then
      (("JPEG"), [])
    else if pyUpper original_format = "WEBP" then (("WEBP"), [])
    else if pyUpper original_format = "PNG" then
      if has_transparency then
        (("PNG"), ["PNG with transparency may not reach target size. Consider WebP."])
      else (("WEBP"), [])
    else (("WEBP"), [])

/-- Embedding of `calculate_resize_dimensions` (compress.py lines 48-67).
`scaleTenths` is the scale factor in tenths (all call sites use multiples of
0.1); `int(v * scale)` on nonnegative values is the rational floor, written
with `Nat` division.  `if max_dim` is Python truthiness: `None` and `0` both
skip the cap. -/
def calculate_resize_dimensions (original_width original_height : Nat)
    (max_dim : Option Nat) (scaleTenths : Nat) : Nat × Nat :=
  let new_width := original_width * scaleTenths / 10
  let new_height := original_height * scaleTenths / 10
  match max_dim with
  | some m =>
      if m ≠ 0 ∧ m < max new_width new_height then
        if new_height < new_width then
          (max 1 (new_width * m / new_width), max 1 (new_height * m / new_width))
        else
          (max 1 (new_width * m / new_height), max 1 (new_height * m / new_height))
      else (max 1 new_width, max 1 new_height)
  | none => (max 1 new_width, max 1 new_height)

/-- One call of the encoder during the search: the scale (in tenths) at which
it happened, the quality passed, and the byte size that came back.  This is
ghost instrumentation recording the probes of `compress_to_target`. -/
structure Probe where
  scaleTenths : Nat
  quality : Nat
  size : Nat
deriving DecidableEq

/-- `d < x` where `x : Option Nat` renders a Python float that is either a
recorded `Nat` distance/size or `float('inf')` (`none`). -/
def ltInf (d : Nat) (x : Option Nat) : Prop :=
  match x with
  | none => True
  | some d' => d < d'

instance (d : Nat) (x : Option Nat) : Decidable (ltInf d x) := by
  unfold ltInf
  cases x <;> infer_instance

/-- The `target_size` early-stop test `best_distance_from_target <
target_bytes * 0.05` (compress.py line 172): distance `none` is
`float('inf')`, and the 5% threshold is exact. -/
def stopClose (d : Option Nat) (target_bytes : Nat) : Prop :=
  match d with
  | none => False
  | some d' => 20 * d' < target_bytes

instance (d : Option Nat) (t : Nat) : Decidable (stopClose d t) := by
  unfold stopClose
  cases d <;> infer_instance

/-- The auto-mode quality binary search (compress.py lines 144-162): ten
iterations over `[low_q, high_q]`, probing `mid = (low_q+high_q)//2`,
recording the acceptable probe closest to the target from below
(`scale_best_result`, with `scale_best_distance` as `Option Nat`, `none`
being the initial `float('inf')`), moving `low` up on success and `high`
down on failure.  The quality bounds stay nonnegative for the actual call
`(40, 95)`, so `Nat` subtraction is exact here.  Returns the per-scale best,
its distance, and the extended probe trace. -/
def autoSearchGo (enc : Nat → Bytes) (target_bytes new_width new_height scaleTenths : Nat) :
    Nat → Nat → Nat → Option (Bytes × Nat × Nat × Nat) → Option Nat → List Probe →
    Option (Bytes × Nat × Nat × Nat) × Option Nat × List Probe
  | 0, _, _, best, bestDist, tr => (best, bestDist, tr)
  | fuel + 1, low_q, high_q, best, bestDist, tr =>
      let mid_q := (low_q + high_q) / 2
      let compressed := enc mid_q
      let size := compressed.length
      let tr' := tr ++ [⟨scaleTenths, mid_q, size⟩]
      if size ≤ target_bytes then
        if ltInf (target_bytes - size) bestDist then
          autoSearchGo enc target_bytes new_width new_height scaleTenths fuel
            (mid_q + 1) high_q (some (compressed, new_width, new_height, size))
            (some (target_bytes - size)) tr'
        else
          autoSearchGo enc target_bytes new_width new_height scaleTenths fuel
            (mid_q + 1) high_q best bestDist tr'
      else
        autoSearchGo enc target_bytes new_width new_height scaleTenths fuel
          low_q (mid_q - 1) best bestDist tr'

/-- The orchestrator state threaded through the scale loop: the global best
candidate `(bytes, width, height)`, its size, its distance from target
(`none` renders the initial `float('inf')` of both), and the ghost probe
trace. -/
structure SState where
  best : Option (Bytes × Nat × Nat)
  bestSize : Option Nat
  bestDist : Option Nat
  trace : List Probe

/-- The scale loop of `compress_to_target` (compress.py lines 117-188),
as a recursion over the remaining scale factors (in tenths).  Each step
computes dimensions, resizes only when the scale is below 1.0, then runs the
manual single encode, the auto binary search, or the lossless single encode,
updates the global best, and applies the break rules (the two early-stop
checks live in the auto branch, the size-reached break in the lossless
branch, exactly as in the source). -/
def scaleLoop (img : ImgInfo) (target_bytes : Nat) (chosen_format : String)
    (max_dim : Option Nat) (quality_mode : String) (manual_quality : Option Nat)
    (priority : String) (se : Bool) :
    List Nat → SState → SState
  | [], s => s
  | scaleTenths :: rest, s =>
      let dims := calculate_resize_dimensions img.width img.height max_dim scaleTenths
      let working_img := if scaleTenths < 10 then WorkingImg.resized dims.1 dims.2
        else WorkingImg.original
      if chosen_format = "JPEG" ∨ chosen_format = "WEBP" then
        if quality_mode = "manual" ∧ manual_quality ≠ none then
          let quality := manual_quality.getD 0
          let compressed := img.encode working_img chosen_format quality se
          let size := compressed.length
          let tr' := s.trace ++ [⟨scaleTenths, quality, size⟩]
          let s' : SState :=
            if size ≤ target_bytes ∧ ltInf (target_bytes - size) s.bestDist then
              ⟨some (compressed, dims.1, dims.2), some size, some (target_bytes - size), tr'⟩
            else ⟨s.best, s.bestSize, s.bestDist, tr'⟩
          scaleLoop img target_bytes chosen_format max_dim quality_mode manual_quality
            priority se rest s'
        else
          let res := autoSearchGo (fun q => img.encode working_img chosen_format q se)
            target_bytes dims.1 dims.2 scaleTenths 10 40 95 none none s.trace
          let s' : SState :=
            match res.1, res.2.1 with
            | some (compressed, w, h, size), sd =>
                if ltInf (target_bytes - size) s.bestDist then
                  ⟨some (compressed, w, h), some size, sd, res.2.2⟩
                else ⟨s.best, s.bestSize, s.bestDist, res.2.2⟩
            | none, _ => ⟨s.best, s.bestSize, s.bestDist, res.2.2⟩
          if priority = "target_size" ∧ stopClose s'.bestDist target_bytes then s'
          else if priority = "optimal_resolution" ∧ s'.best ≠ none then s'
          else
            scaleLoop img target_bytes chosen_format max_dim quality_mode manual_quality
              priority se rest s'
      else
        let compressed := img.encode working_img chosen_format 95 se
        let size := compressed.length
        let tr' := s.trace ++ [⟨scaleTenths, 95, size⟩]
        let s' : SState :=
          if ltInf size s.bestSize then
            ⟨some (compressed, dims.1, dims.2), some size, s.bestDist, tr'⟩
          else ⟨s.best, s.bestSize, s.bestDist, tr'⟩
        if size ≤ target_bytes then s'
        else
          scaleLoop img target_bytes chosen_format max_dim quality_mode manual_quality
            priority se rest s'

/-- Warning appended when the fallback candidate is returned
(compress.py line 198). -/
def fallbackWarning : String := "Could not reach target size. This is the best effort result."

/-- Warning appended when the best candidate is over budget
(compress.py line 200). -/
def nearMissWarning (best_size target_bytes : Nat) : String :=
  "Could not reach exact target. Output is " ++ toString best_size ++
    " bytes (target was " ++ toString target_bytes ++ ")."

/-- Result of one orchestration run, with the ghost probe trace. -/
structure CompressOutcome where
  bytes : Bytes
  width : Nat
  height : Nat
  format : String
  warnings : List String
  trace : List Probe

/-- Embedding of `compress_to_target` (compress.py lines 70-204), with the
ghost probe trace added: format choice, the pass-through short circuit, the
priority-dependent scale list, the scale loop, and the fallback / near-miss
epilogue.  In the source `best_size` can only exceed `target_bytes` while
`best_result` is set, and the two are always assigned together, so the
`some`/`none` mismatch arms are unreachable; they keep the function total. -/
def compressRun (img : ImgInfo) (image_bytes : Bytes) (target_bytes : Nat)
    (output_format : String) (max_dim : Option Nat) (quality_mode : String)
    (manual_quality : Option Nat) (priority : String) (se : Bool) : CompressOutcome :=
  let original_size := image_bytes.length
  let original_format := originalFormat img
  let fmtRes := choose_output_format img.mode img.transparencyInfo original_format
    target_bytes original_size output_format
  let chosen_format := fmtRes.1
  let warnings := fmtRes.2
  if original_size ≤ target_bytes ∧ chosen_format = pyUpper original_format then
    ⟨image_bytes, img.width, img.height, chosen_format, warnings, []⟩
  else
    let resize_scales := if priority = "optimal_resolution" then [10] else [10, 9, 8, 7, 6, 5]
    let s := scaleLoop img target_bytes chosen_format max_dim quality_mode manual_quality
      priority se resize_scales ⟨none, none, none, []⟩
    match s.best with
    | none =>
        let dims := calculate_resize_dimensions img.width img.height max_dim 5
        let compressed := img.encode (WorkingImg.resized dims.1 dims.2) chosen_format 40 se
        ⟨compressed, dims.1, dims.2, chosen_format, warnings ++ [fallbackWarning], s.trace⟩
    | some bwh =>
        let warnings' :=
          match s.bestSize with
          | some bs =>
              if target_bytes < bs then warnings ++ [nearMissWarning bs target_bytes]
              else warnings
          | none => warnings
        ⟨bwh.1, bwh.2.1, bwh.2.2, chosen_format, warnings', s.trace⟩

/-- `compress_to_target`: the caller-facing tuple
`(compressed_bytes, width, height, format, warnings)`. -/
def compress_to_target (img : ImgInfo) (image_bytes : Bytes) (target_bytes : Nat)
    (output_format : String) (max_dim : Option Nat) (quality_mode : String)
    (manual_quality : Option Nat) (priority : String) (se : Bool) :
    Bytes × Nat × Nat × String × List String :=
  let r := compressRun img image_bytes target_bytes output_format max_dim quality_mode
    manual_quality priority se
  (r.bytes, r.width, r.height, r.format, r.warnings)

/-- Embedding of `estimate_compression` (compress.py lines 207-227): it runs
`compress_to_target` on the same arguments and reports
`(width, height, size, format, warnings)`, discarding the payload. -/
def estimate_compression (img : ImgInfo) (image_bytes : Bytes) (target_bytes : Nat)
    (output_format : String) (max_dim : Option Nat) (quality_mode : String)
    (manual_quality : Option Nat) (priority : String) (se : Bool) :
    Nat × Nat × Nat × String × List String :=
  let c := compress_to_target img image_bytes target_bytes output_format max_dim
    quality_mode manual_quality priority se
  (c.2.1, c.2.2.1, c.1.length, c.2.2.2.1, c.2.2.2.2)

/-- The fields of `EstimateRequest` (models.py lines 14-20) as submitted
values.  `target_bytes` and `quality` are `Int` so that out-of-range values
can be expressed. -/
structure EstimateRequestInput where
  target_bytes : Int
  output_format : String
  max_dim : Option Int
  quality_mode : String
  quality : Option Int
  priority : String

/-- The `ge=1, le=100` bound on the optional `quality` field. -/
def qualityInRange : Option Int → Prop
  | none => True
  | some q => 1 ≤ q ∧ q ≤ 100

instance : (o : Option Int) → Decidable (qualityInRange o)
  | none => isTrue trivial
  | some _ => inferInstanceAs (Decidable (_ ∧ _))

/-- The pydantic validation of `EstimateRequest` (models.py lines 14-20):
`target_bytes` must be positive, the three literal fields must take one of
their allowed values, and `quality`, when present, must lie in `[1, 100]`
(`ge=1, le=100`).  `max_dim` is unconstrained. -/
def validEstimateRequest (r : EstimateRequestInput) : Prop :=
  0 < r.target_bytes ∧
  (r.output_format = "auto" ∨ r.output_format = "jpeg" ∨ r.output_format = "png" ∨
    r.output_format = "webp") ∧
  (r.quality_mode = "auto" ∨ r.quality_mode = "manual") ∧
  qualityInRange r.quality ∧
  (r.priority = "target_size" ∨ r.priority = "optimal_resolution")

instance (r : EstimateRequestInput) : Decidable (validEstimateRequest r) :=
  inferInstanceAs (Decidable (_ ∧ _))

/-- Consistency of the orchestrator state: the three best-candidate fields
are set together, the recorded distance is the distance of the recorded
size, and once an acceptable probe is in the trace the recorded best size is
within budget. -/
def StateOK (target_bytes : Nat) (s : SState) : Prop :=
  (s.best = none → s.bestSize = none ∧ s.bestDist = none) ∧
  (∀ b w h, s.best = some (b, w, h) → ∃ sz, s.bestSize = some sz ∧ b.length = sz) ∧
  (∀ d, s.bestDist = some d →
    ∃ sz, s.bestSize = some sz ∧ sz ≤ target_bytes ∧ d = target_bytes - sz) ∧
  ((∃ p ∈ s.trace, p.size ≤ target_bytes) →
    ∃ sz, s.bestSize = some sz ∧ sz ≤ target_bytes)

/-- In the lossy branches a candidate is only ever recorded from an
acceptable probe. -/
def LossyOK (target_bytes : Nat) (s : SState) : Prop :=
  s.best ≠ none → ∃ p ∈ s.trace, p.size ≤ target_bytes

/-- What the per-scale binary search may hold mid-flight, relative to the
maximum acceptable quality `Q`: nothing yet, or the encoding at some
acceptable quality at most `Q`, with the synchronised distance. -/
def BestOKAt (enc : Nat → Bytes) (target_bytes nw nh Q : Nat)
    (best : Option (Bytes × Nat × Nat × Nat)) (bestDist : Option Nat) : Prop :=
  (best = none ∧ bestDist = none) ∨
  (∃ q, q ≤ Q ∧ (enc q).length ≤ target_bytes ∧
    best = some (enc q, nw, nh, (enc q).length) ∧
    bestDist = some (target_bytes - (enc q).length))

/-- C4 (counterexample): the request with `quality_mode = "manual"` and
`manual_quality = 10` passes `EstimateRequest` validation — it is not
rejected, contrary to the claim. -/
theorem c4_quality_10_accepted_cex :
    validEstimateRequest ⟨500000, ("auto"), none, ("manual"), some 10, ("target_size")⟩ := by
  decide

/-- C4 (amended): `manual_quality = 10` lies inside the validated range
`[1, 100]` of models.py, so the request is accepted at validation; only
values outside that range, such as `0` or `101`, are rejected as invalid
input. -/
theorem c4_manual_quality_range :
    validEstimateRequest ⟨500000, ("auto"), none, ("manual"), some 10, ("target_size")⟩ ∧
    ¬ validEstimateRequest ⟨500000, ("auto"), none, ("manual"), some 0, ("target_size")⟩ ∧
    ¬ validEstimateRequest ⟨500000, ("auto"), none, ("manual"), some 101, ("target_size")⟩ := by
  decide

/-- C6: when the original payload is already within budget and the chosen
output format equals the uppercased original container format,
`compress_to_target` returns the input bytes unchanged with the original
dimensions — the pass-through short circuit. -/
theorem c6_passthrough (img : ImgInfo) (image_bytes : Bytes) (target_bytes : Nat)
    (output_format : String) (max_dim : Option Nat) (quality_mode : String)
    (manual_quality : Option Nat) (priority : String) (se : Bool)
    (hsize : image_bytes.length ≤ target_bytes)
    (hfmt : (choose_output_format img.mode img.transparencyInfo (originalFormat img)
      target_bytes image_bytes.length output_format).1 = pyUpper (originalFormat img)) :
    compress_to_target img image_bytes target_bytes output_format max_dim quality_mode
      manual_quality priority se =
      (image_bytes, img.width, img.height,
        (choose_output_format img.mode img.transparencyInfo (originalFormat img)
          target_bytes image_bytes.length output_format).1,
        (choose_output_format img.mode img.transparencyInfo (originalFormat img)
          target_bytes image_bytes.length output_format).2) := by
  simp only [compress_to_target, compressRun]
  rw [if_pos ⟨hsize, hfmt⟩]

/-- C6 (witness): a 1-byte PNG input under a 5-byte target with requested
format `png` comes back byte-identical with the original dimensions. -/
theorem c6_passthrough_witness :
    compress_to_target ⟨640, 480, ("RGB"), false, some ("PNG"), fun _ _ _ _ => []⟩
      [0] 5 ("png") none ("auto") none ("target_size") false =
      ([0], 640, 480, ("PNG"), []) := by
  have h := c6_passthrough ⟨640, 480, ("RGB"), false, some ("PNG"), fun _ _ _ _ => []⟩
    [0] 5 ("png") none ("auto") none ("target_size") false (by decide) (by decide)
  simpa using h

/-- C8: `estimate_compression` reports exactly the width, height, byte
length, format and warnings of the `compress_to_target` run on the same
arguments. -/
theorem c8_estimate_refines_compress (img : ImgInfo) (image_bytes : Bytes)
    (target_bytes : Nat) (output_format : String) (max_dim : Option Nat)
    (quality_mode : String) (manual_quality : Option Nat) (priority : String)
    (se : Bool) (b : Bytes) (w h : Nat) (f : String) (ws : List String)
    (hc : compress_to_target img image_bytes target_bytes output_format max_dim
      quality_mode manual_quality priority se = (b, w, h, f, ws)) :
    estimate_compression img image_bytes target_bytes output_format max_dim
      quality_mode manual_quality priority se = (w, h, b.length, f, ws) := by
  simp only [estimate_compression, hc]

/-- C8 (witness): on a concrete pass-through run the estimate entry point
returns the dimensions, byte count, format and warnings of the compression
entry point. -/
theorem c8_estimate_witness :
    estimate_compression ⟨640, 480, ("RGB"), false, some ("PNG"), fun _ _ _ _ => []⟩
      [0] 5 ("png") none ("auto") none ("target_size") false =
      (640, 480, 1, ("PNG"), []) := by
  have h := c8_estimate_refines_compress ⟨640, 480, ("RGB"), false, some ("PNG"),
    fun _ _ _ _ => []⟩ [0] 5 ("png") none ("auto") none ("target_size") false
    [0] 640 480 ("PNG") [] (by decide)
  simpa using h

/-- C1 (counterexample): with requested format `png` nothing ever fits the
budget (every probe exceeds 15 bytes), yet `compress_to_target` does not run
the 0.5-scale quality-40 fallback: it keeps the over-budget lossless
encoding at full size and appends the near-miss warning instead of the
could-not-reach-target warning. -/
theorem c1_png_no_fallback_cex :
    (∀ p ∈ (compressRun ⟨100, 80, ("RGB"), false, some ("PNG"), fun _ _ q _ =>
        List.replicate 20 q⟩ (List.replicate 30 0) 15 ("png") none ("auto") none
        ("target_size") false).trace, 15 < p.size) ∧
    (compressRun ⟨100, 80, ("RGB"), false, some ("PNG"), fun _ _ q _ =>
        List.replicate 20 q⟩ (List.replicate 30 0) 15 ("png") none ("auto") none
        ("target_size") false).warnings = [nearMissWarning 20 15] ∧
    (compressRun ⟨100, 80, ("RGB"), false, some ("PNG"), fun _ _ q _ =>
        List.replicate 20 q⟩ (List.replicate 30 0) 15 ("png") none ("auto") none
        ("target_size") false).warnings ≠ [fallbackWarning] ∧
    (compressRun ⟨100, 80, ("RGB"), false, some ("PNG"), fun _ _ q _ =>
        List.replicate 20 q⟩ (List.replicate 30 0) 15 ("png") none ("auto") none
        ("target_size") false).bytes = List.replicate 20 95 ∧
    (compressRun ⟨100, 80, ("RGB"), false, some ("PNG"), fun _ _ q _ =>
        List.replicate 20 q⟩ (List.replicate 30 0) 15 ("png") none ("auto") none
        ("target_size") false).bytes ≠ List.replicate 20 40 ∧
    (compressRun ⟨100, 80, ("RGB"), false, some ("PNG"), fun _ _ q _ =>
        List.replicate 20 q⟩ (List.replicate 30 0) 15 ("png") none ("auto") none
        ("target_size") false).width = 100 := by
  refine ⟨by decide, by decide, by decide, by decide, by decide, by decide⟩

/-- C2 (counterexample): an encoder whose size is constant (hence
monotonically non-decreasing in quality, with quality 95 acceptable) on
which the binary search records the quality-67 encoding, not the encoding at
the maximum acceptable quality 95. -/
theorem c2_tie_cex :
    (∀ q q' : Nat, q ≤ q' →
      (List.replicate 100 q).length ≤ (List.replicate 100 q').length) ∧
    (List.replicate 100 (95 : Nat)).length ≤ 100 ∧
    (autoSearchGo (fun q => List.replicate 100 q) 100 640 480 10 10 40 95
        none none []).1 = some (List.replicate 100 67, 640, 480, 100) ∧
    (autoSearchGo (fun q => List.replicate 100 q) 100 640 480 10 10 40 95
        none none []).1 ≠ some (List.replicate 100 95, 640, 480, 100) := by
  refine ⟨fun q q' _ => by simp, by decide, by decide, by decide⟩

/-- C3 (counterexample): in auto quality mode on an image whose every
encoding exceeds the 10-byte target, the binary search passes quality 39 to
the encoder — not every probed quality lies in `[40, 95]`. -/
theorem c3_probe_39_cex :
    ¬ ∀ p ∈ (compressRun ⟨640, 480, ("RGB"), false, some ("JPEG"), fun _ _ _ _ =>
        List.replicate 11 0⟩ (List.replicate 12 0) 10 ("jpeg") none ("auto") none
        ("target_size") false).trace, 40 ≤ p.quality := by
  decide

set_option maxRecDepth 8000 in
/-- C5 (counterexample): with `quality_mode = "manual"`, after the first
scale the global best distance is 10, well under 5% of the 1000-byte target,
yet the loop still probes all six scales — the early-stop rule is not
checked in the manual path. -/
theorem c5_manual_no_stop_cex :
    (scaleLoop ⟨640, 480, ("RGB"), false, some ("PNG"), fun _ _ _ _ =>
        List.replicate 990 0⟩ 1000 ("JPEG") none ("manual") (some 80)
        ("target_size") false [10] ⟨none, none, none, []⟩).bestDist = some 10 ∧
    stopClose (some 10) 1000 ∧
    (compressRun ⟨640, 480, ("RGB"), false, some ("PNG"), fun _ _ _ _ =>
        List.replicate 990 0⟩ (List.replicate 2000 0) 1000 ("jpeg") none
        ("manual") (some 80) ("target_size") false).trace.map Probe.scaleTenths =
      [10, 9, 8, 7, 6, 5] := by
  refine ⟨by decide, by decide, by decide⟩

/-- Helper for C10: with `manual_quality = none` the scale loop behaves
identically under `quality_mode = "manual"` and `quality_mode = "auto"`,
because the manual branch requires both the mode and a present quality. -/
theorem scaleLoop_manual_none_eq_auto (img : ImgInfo) (t : Nat) (cf : String)
    (md : Option Nat) (prio : String) (se : Bool) :
    ∀ (scales : List Nat) (s : SState),
      scaleLoop img t cf md ("manual") none prio se scales s =
      scaleLoop img t cf md ("auto") none prio se scales s := by
  intro scales
  induction scales with
  | nil => intro s; rfl
  | cons k rest ih =>
      intro s
      simp only [scaleLoop]
      simp only [ne_eq, not_true_eq_false, and_false, if_false, ih]

/-- C10: `compress_to_target` with `quality_mode = "manual"` but
`manual_quality = none` raises no error and performs no manual encode — it
is the very same computation as `quality_mode = "auto"`. -/
theorem c10_manual_none_is_auto (img : ImgInfo) (image_bytes : Bytes)
    (target_bytes : Nat) (output_format : String) (max_dim : Option Nat)
    (priority : String) (se : Bool) :
    compress_to_target img image_bytes target_bytes output_format max_dim
      ("manual") none priority se =
    compress_to_target img image_bytes target_bytes output_format max_dim
      ("auto") none priority se := by
  simp only [compress_to_target, compressRun, scaleLoop_manual_none_eq_auto]

/-- C7: under the exact-arithmetic reading of the dimension planner, both
returned dimensions are at least 1, and whenever a positive `max_dim` is set
and the scaled larger dimension exceeds it, the same rescale factor is
applied to both axes so that the larger returned dimension equals
`max_dim`.  (The Python source computes the cap with binary floating point,
which can truncate the larger dimension to `max_dim - 1`; see the C7
record.) -/
theorem c7_dimension_planner_ideal (w h st : Nat) (md : Option Nat)
    (_hw : 0 < w) (_hh : 0 < h) (_hst : st ∈ [10, 9, 8, 7, 6, 5])
    (hpos : ∀ m, md = some m → 0 < m) :
    1 ≤ (calculate_resize_dimensions w h md st).1 ∧
    1 ≤ (calculate_resize_dimensions w h md st).2 ∧
    ∀ m, md = some m → m < max (w * st / 10) (h * st / 10) →
      max (calculate_resize_dimensions w h md st).1
        (calculate_resize_dimensions w h md st).2 = m := by
  cases md with
  | none =>
      simp only [calculate_resize_dimensions]
      exact ⟨le_max_left 1 _, le_max_left 1 _, fun m hm => by cases hm⟩
  | some m =>
      have hm : 0 < m := hpos m rfl
      simp only [calculate_resize_dimensions]
      by_cases hcap : m ≠ 0 ∧ m < max (w * st / 10) (h * st / 10)
      · rw [if_pos hcap]
        by_cases hwh : h * st / 10 < w * st / 10
        · rw [if_pos hwh]
          have hmax : max (w * st / 10) (h * st / 10) = w * st / 10 :=
            Nat.max_eq_left (Nat.le_of_lt hwh)
          have hmlt : m < w * st / 10 := by
            have := hcap.2
            rwa [hmax] at this
          have hswpos : 0 < w * st / 10 := Nat.lt_of_le_of_lt (Nat.zero_le m) hmlt
          have hdiv : w * st / 10 * m / (w * st / 10) = m :=
            Nat.mul_div_cancel_left m hswpos
          have hle : h * st / 10 * m / (w * st / 10) ≤ m := by
            calc h * st / 10 * m / (w * st / 10)
                ≤ w * st / 10 * m / (w * st / 10) :=
                  Nat.div_le_div_right (Nat.mul_le_mul_right m (Nat.le_of_lt hwh))
              _ = m := hdiv
          refine ⟨le_max_left 1 _, le_max_left 1 _, ?_⟩
          intro m' hm' hlt'
          have hmm : m' = m := by
            injection hm' with hmm
            exact hmm.symm
          subst hmm
          simp only [hdiv]
          omega
        · rw [if_neg hwh]
          have hsh : w * st / 10 ≤ h * st / 10 := Nat.le_of_not_lt hwh
          have hmax : max (w * st / 10) (h * st / 10) = h * st / 10 :=
            Nat.max_eq_right hsh
          have hmlt : m < h * st / 10 := by
            have := hcap.2
            rwa [hmax] at this
          have hshpos : 0 < h * st / 10 := Nat.lt_of_le_of_lt (Nat.zero_le m) hmlt
          have hdiv : h * st / 10 * m / (h * st / 10) = m :=
            Nat.mul_div_cancel_left m hshpos
          have hle : w * st / 10 * m / (h * st / 10) ≤ m := by
            calc w * st / 10 * m / (h * st / 10)
                ≤ h * st / 10 * m / (h * st / 10) :=
                  Nat.div_le_div_right (Nat.mul_le_mul_right m hsh)
              _ = m := hdiv
          refine ⟨le_max_left 1 _, le_max_left 1 _, ?_⟩
          intro m' hm' hlt'
          have hmm : m' = m := by
            injection hm' with hmm
            exact hmm.symm
          subst hmm
          simp only [hdiv]
          omega
      · rw [if_neg hcap]
        refine ⟨le_max_left 1 _, le_max_left 1 _, ?_⟩
        intro m' hm' hlt'
        have hmm : m' = m := by
          injection hm' with hmm
          exact hmm.symm
        subst hmm
        exact absurd ⟨Nat.pos_iff_ne_zero.mp hm, hlt'⟩ hcap

/-- C7 (witness): a 1000×700 image at scale 0.9 capped by `max_dim = 500`
gets positive dimensions whose larger one equals 500, via the planner
theorem at that concrete input. -/
theorem c7_dimension_planner_witness :
    1 ≤ (calculate_resize_dimensions 1000 700 (some 500) 9).1 ∧
    max (calculate_resize_dimensions 1000 700 (some 500) 9).1
      (calculate_resize_dimensions 1000 700 (some 500) 9).2 = 500 := by
  have h := c7_dimension_planner_ideal 1000 700 9 (some 500) (by decide) (by decide)
    (by decide) (fun m hm => by cases hm; decide)
  exact ⟨h.1, h.2.2 500 rfl (by decide)⟩

/-- Helper for C3: from any search window satisfying the reachable-state
bounds, every probe the binary search appends carries a quality in
`[39, 95]`. -/
theorem autoGo_probe_bounds (enc : Nat → Bytes) (target_bytes nw nh st : Nat) :
    ∀ (fuel low high : Nat) (best : Option (Bytes × Nat × Nat × Nat))
      (bestDist : Option Nat) (tr : List Probe),
      40 ≤ low → low ≤ 96 → 38 ≤ high → high ≤ 95 → low ≤ high + 2 →
      ∀ p ∈ (autoSearchGo enc target_bytes nw nh st fuel low high best bestDist tr).2.2,
        p ∈ tr ∨ (39 ≤ p.quality ∧ p.quality ≤ 95) := by
  intro fuel
  induction fuel with
  | zero =>
      intro low high best bestDist tr _ _ _ _ _ p hp
      exact Or.inl hp
  | succ fuel ih =>
      intro low high best bestDist tr h1 h2 h3 h4 h5 p hp
      simp only [autoSearchGo] at hp
      have hmid1 : 39 ≤ (low + high) / 2 := by omega
      have hmid2 : (low + high) / 2 ≤ 95 := by omega
      by_cases hsz : (enc ((low + high) / 2)).length ≤ target_bytes
      · rw [if_pos hsz] at hp
        by_cases hlt : ltInf (target_bytes - (enc ((low + high) / 2)).length) bestDist
        · rw [if_pos hlt] at hp
          have hrec := ih ((low + high) / 2 + 1) high _ _ _
            (by omega) (by omega) h3 h4 (by omega) p hp
          rcases hrec with hmem | hq
          · rcases List.mem_append.mp hmem with hold | hnew
            · exact Or.inl hold
            · simp only [List.mem_singleton] at hnew
              subst hnew
              exact Or.inr ⟨hmid1, hmid2⟩
          · exact Or.inr hq
        · rw [if_neg hlt] at hp
          have hrec := ih ((low + high) / 2 + 1) high _ _ _
            (by omega) (by omega) h3 h4 (by omega) p hp
          rcases hrec with hmem | hq
          · rcases List.mem_append.mp hmem with hold | hnew
            · exact Or.inl hold
            · simp only [List.mem_singleton] at hnew
              subst hnew
              exact Or.inr ⟨hmid1, hmid2⟩
          · exact Or.inr hq
      · rw [if_neg hsz] at hp
        have hrec := ih low ((low + high) / 2 - 1) _ _ _
          h1 h2 (by omega) (by omega) (by omega) p hp
        rcases hrec with hmem | hq
        · rcases List.mem_append.mp hmem with hold | hnew
          · exact Or.inl hold
          · simp only [List.mem_singleton] at hnew
            subst hnew
            exact Or.inr ⟨hmid1, hmid2⟩
        · exact Or.inr hq

/-- C3 (amended): every quality the auto-mode binary search passes to the
encoder, for every image, format and target, lies in the inclusive interval
`[39, 95]` — the lower endpoint 39 (one below the documented lower bound 40)
is reachable, as the counterexample shows. -/
theorem c3_probe_quality_bounds (enc : Nat → Bytes)
    (target_bytes new_width new_height scaleTenths : Nat) (tr : List Probe) (p : Probe)
    (hp : p ∈ (autoSearchGo enc target_bytes new_width new_height scaleTenths
      10 40 95 none none tr).2.2) :
    p ∈ tr ∨ (39 ≤ p.quality ∧ p.quality ≤ 95) :=
  autoGo_probe_bounds enc target_bytes new_width new_height scaleTenths 10 40 95
    none none tr (by omega) (by omega) (by omega) (by omega) (by omega) p hp

/-- C3 (witness): the first probe of a concrete failing search (quality 67)
is in bounds, via the bounds theorem at that concrete input. -/
theorem c3_probe_quality_bounds_witness :
    (⟨10, 67, 11⟩ : Probe) ∈ ([] : List Probe) ∨
      (39 ≤ (⟨10, 67, 11⟩ : Probe).quality ∧ (⟨10, 67, 11⟩ : Probe).quality ≤ 95) :=
  c3_probe_quality_bounds (fun _ => List.replicate 11 0) 10 640 480 10 []
    ⟨10, 67, 11⟩ (by decide)

/-- Helper for C2: from any window satisfying the search invariants around
the maximum acceptable quality `Q`, the binary search ends with exactly the
encoding at `Q` recorded, provided encoded size is strictly increasing in
quality, `Q` is acceptable and every quality above `Q` (up to 95) is not. -/
theorem autoGo_finds_max (enc : Nat → Bytes) (target_bytes nw nh st Q : Nat)
    (hmono : ∀ q q' : Nat, q < q' → (enc q).length < (enc q').length)
    (hQP : (enc Q).length ≤ target_bytes)
    (hQmax : ∀ q, Q < q → q ≤ 95 → target_bytes < (enc q).length) :
    ∀ (fuel low high : Nat) (best : Option (Bytes × Nat × Nat × Nat))
      (bestDist : Option Nat) (tr : List Probe),
      40 ≤ low → low ≤ 96 → high ≤ 95 → low ≤ Q + 1 → Q ≤ high →
      BestOKAt enc target_bytes nw nh Q best bestDist →
      (best = some (enc Q, nw, nh, (enc Q).length) ∨
        (1 ≤ fuel ∧ high + 1 - low < 2 ^ (fuel - 1))) →
      (autoSearchGo enc target_bytes nw nh st fuel low high best bestDist tr).1 =
        some (enc Q, nw, nh, (enc Q).length) := by
  have hmono' : ∀ q q' : Nat, q ≤ q' → (enc q).length ≤ (enc q').length := by
    intro q q' h
    rcases Nat.eq_or_lt_of_le h with rfl | h
    · exact Nat.le_refl _
    · exact Nat.le_of_lt (hmono _ _ h)
  intro fuel
  induction fuel with
  | zero =>
      intro low high best bestDist tr _ _ _ _ _ _ hdisj
      rcases hdisj with hatt | ⟨hf, _⟩
      · simpa only [autoSearchGo] using hatt
      · omega
  | succ fuel ih =>
      intro low high best bestDist tr h40 h96 h95 hlQ hQh hbest hdisj
      have hmid95 : (low + high) / 2 ≤ 95 := by omega
      simp only [autoSearchGo]
      by_cases hP : (enc ((low + high) / 2)).length ≤ target_bytes
      · have hmidQ : (low + high) / 2 ≤ Q := by
          by_contra hc
          push_neg at hc
          exact absurd hP (Nat.not_le.mpr (hQmax _ hc hmid95))
        rw [if_pos hP]
        simp only [BestOKAt] at hbest
        rcases hbest with ⟨hb, hd⟩ | ⟨q, hqQ, hqP, hb, hd⟩
        · -- nothing recorded yet: the acceptable probe is recorded
          subst hb
          subst hd
          rw [if_pos (show ltInf (target_bytes - (enc ((low + high) / 2)).length) none
            from by unfold ltInf; trivial)]
          rcases Nat.eq_or_lt_of_le hmidQ with heq | hltQ
          · -- the probe is Q itself: attained from here on
            rw [heq]
            exact ih (Q + 1) high _ _ _
              (by omega) (by omega) h95 (by omega) hQh
              (by
                simp only [BestOKAt]
                exact Or.inr ⟨Q, Nat.le_refl Q, hQP, rfl, rfl⟩)
              (Or.inl rfl)
          · -- strictly below Q: shrink the window
            rcases hdisj with hatt | ⟨hf1, hw⟩
            · exact absurd hatt (by simp)
            · have hfuel1 : 1 ≤ fuel := by
                rcases Nat.eq_or_lt_of_le hf1 with hf0 | hf2
                · exfalso
                  have : high + 1 - low < 1 := by
                    have : (2 : Nat) ^ (fuel + 1 - 1) = 1 := by
                      rw [show fuel + 1 - 1 = fuel from rfl]
                      have : fuel = 0 := by omega
                      rw [this]
                      rfl
                    omega
                  omega
                · omega
              have hk1 : 1 ≤ 2 ^ (fuel - 1) := Nat.one_le_two_pow
              have hk2 : 2 ^ fuel = 2 * 2 ^ (fuel - 1) := by
                have hs : fuel - 1 + 1 = fuel := Nat.sub_add_cancel hfuel1
                calc 2 ^ fuel = 2 ^ (fuel - 1 + 1) := by rw [hs]
                  _ = 2 ^ (fuel - 1) * 2 := by rw [Nat.pow_succ]
                  _ = 2 * 2 ^ (fuel - 1) := by ring
              exact ih ((low + high) / 2 + 1) high _ _ _
                (by omega) (by omega) h95 (by omega) hQh
                (by
                  simp only [BestOKAt]
                  exact Or.inr ⟨(low + high) / 2, hmidQ, hP, rfl, rfl⟩)
                (Or.inr ⟨hfuel1, by simp only [Nat.add_sub_cancel] at hw; omega⟩)
        · -- a candidate at quality q ≤ Q is recorded
          subst hb
          subst hd
          by_cases hqmid : q < (low + high) / 2
          · -- strictly better probe: it replaces the candidate
            have hlt : ltInf (target_bytes - (enc ((low + high) / 2)).length)
                (some (target_bytes - (enc q).length)) := by
              have := hmono q _ hqmid
              unfold ltInf
              omega
            rw [if_pos hlt]
            rcases Nat.eq_or_lt_of_le hmidQ with heq | hltQ
            · rw [heq]
              exact ih (Q + 1) high _ _ _
                (by omega) (by omega) h95 (by omega) hQh
                (by
                  simp only [BestOKAt]
                  exact Or.inr ⟨Q, Nat.le_refl Q, hQP, rfl, rfl⟩)
                (Or.inl rfl)
            · rcases hdisj with hatt | ⟨hf1, hw⟩
              · -- the recorded candidate was already the one at Q: impossible here
                exfalso
                have hql : (enc q).length = (enc Q).length := by
                  have := congrArg (fun o => o.map (fun b => b.2.2.2)) hatt
                  simpa using this
                have h1 := hmono q _ hqmid
                have h2 := hmono' _ Q hmidQ
                omega
              · have hfuel1 : 1 ≤ fuel := by
                  by_contra hf0
                  have hfz : fuel = 0 := by omega
                  subst hfz
                  have h1 : (2 : Nat) ^ (1 - 1) = 1 := rfl
                  omega
                have hk1 : 1 ≤ 2 ^ (fuel - 1) := Nat.one_le_two_pow
                have hk2 : 2 ^ fuel = 2 * 2 ^ (fuel - 1) := by
                  have hs : fuel - 1 + 1 = fuel := Nat.sub_add_cancel hfuel1
                  calc 2 ^ fuel = 2 ^ (fuel - 1 + 1) := by rw [hs]
                    _ = 2 ^ (fuel - 1) * 2 := by rw [Nat.pow_succ]
                    _ = 2 * 2 ^ (fuel - 1) := by ring
                exact ih ((low + high) / 2 + 1) high _ _ _
                  (by omega) (by omega) h95 (by omega) hQh
                  (by
                    simp only [BestOKAt]
                    exact Or.inr ⟨(low + high) / 2, hmidQ, hP, rfl, rfl⟩)
                  (Or.inr ⟨hfuel1, by simp only [Nat.add_sub_cancel] at hw; omega⟩)
          · -- the probe is no better: candidate kept
            have hnlt : ¬ ltInf (target_bytes - (enc ((low + high) / 2)).length)
                (some (target_bytes - (enc q).length)) := by
              have := hmono' _ q (Nat.le_of_not_lt hqmid)
              unfold ltInf
              omega
            rw [if_neg hnlt]
            rcases Nat.eq_or_lt_of_le hmidQ with heq | hltQ
            · -- mid = Q forces q = Q: the candidate is already the one at Q
              have hqQ' : q = Q := by omega
              subst hqQ'
              exact ih ((low + high) / 2 + 1) high _ _ _
                (by omega) (by omega) h95 (by omega) hQh
                (by
                  simp only [BestOKAt]
                  exact Or.inr ⟨q, Nat.le_refl q, hqP, rfl, rfl⟩)
                (Or.inl rfl)
            · rcases hdisj with hatt | ⟨hf1, hw⟩
              · exact ih ((low + high) / 2 + 1) high _ _ _
                  (by omega) (by omega) h95 (by omega) hQh
                  (by
                    simp only [BestOKAt]
                    exact Or.inr ⟨q, hqQ, hqP, rfl, rfl⟩)
                  (Or.inl hatt)
              · have hfuel1 : 1 ≤ fuel := by
                  by_contra hf0
                  have hfz : fuel = 0 := by omega
                  subst hfz
                  have h1 : (2 : Nat) ^ (1 - 1) = 1 := rfl
                  omega
                have hk1 : 1 ≤ 2 ^ (fuel - 1) := Nat.one_le_two_pow
                have hk2 : 2 ^ fuel = 2 * 2 ^ (fuel - 1) := by
                  have hs : fuel - 1 + 1 = fuel := Nat.sub_add_cancel hfuel1
                  calc 2 ^ fuel = 2 ^ (fuel - 1 + 1) := by rw [hs]
                    _ = 2 ^ (fuel - 1) * 2 := by rw [Nat.pow_succ]
                    _ = 2 * 2 ^ (fuel - 1) := by ring
                exact ih ((low + high) / 2 + 1) high _ _ _
                  (by omega) (by omega) h95 (by omega) hQh
                  (by
                    simp only [BestOKAt]
                    exact Or.inr ⟨q, hqQ, hqP, rfl, rfl⟩)
                  (Or.inr ⟨hfuel1, by simp only [Nat.add_sub_cancel] at hw; omega⟩)
      · -- probe too large: everything from mid up is out
        have hQmid : Q < (low + high) / 2 := by
          by_contra hc
          push_neg at hc
          exact hP (Nat.le_trans (hmono' _ _ hc) hQP)
        rw [if_neg hP]
        rcases hdisj with hatt | ⟨hf1, hw⟩
        · exact ih low ((low + high) / 2 - 1) _ _ _
            h40 h96 (by omega) hlQ (by omega) hbest (Or.inl hatt)
        · have hfuel1 : 1 ≤ fuel := by
            by_contra hf0
            have hfz : fuel = 0 := by omega
            subst hfz
            have h1 : (2 : Nat) ^ (1 - 1) = 1 := rfl
            omega
          have hk1 : 1 ≤ 2 ^ (fuel - 1) := Nat.one_le_two_pow
          have hk2 : 2 ^ fuel = 2 * 2 ^ (fuel - 1) := by
            have hs : fuel - 1 + 1 = fuel := Nat.sub_add_cancel hfuel1
            calc 2 ^ fuel = 2 ^ (fuel - 1 + 1) := by rw [hs]
              _ = 2 ^ (fuel - 1) * 2 := by rw [Nat.pow_succ]
              _ = 2 * 2 ^ (fuel - 1) := by ring
          exact ih low ((low + high) / 2 - 1) _ _ _
            h40 h96 (by omega) hlQ (by omega) hbest
            (Or.inr ⟨hfuel1, by simp only [Nat.add_sub_cancel] at hw; omega⟩)

/-- C2 (amended): for a fixed scale and lossy format, when encoded size is
strictly increasing in quality and quality 40 fits the budget, the auto-mode
binary search records exactly the encoding at the maximum acceptable quality
`Q ≤ 95` (with `40 ≤ Q`, `Q` acceptable, everything above it up to 95 over
budget).  The counterexample shows why merely non-decreasing size is not
enough: on ties the search keeps an earlier encoding of equal size. -/
theorem c2_binary_search_max_quality (enc : Nat → Bytes)
    (target_bytes nw nh st : Nat) (tr : List Probe)
    (hmono : ∀ q q' : Nat, q < q' → (enc q).length < (enc q').length)
    (hacc : (enc 40).length ≤ target_bytes) :
    40 ≤ Nat.findGreatest (fun q => (enc q).length ≤ target_bytes) 95 ∧
    Nat.findGreatest (fun q => (enc q).length ≤ target_bytes) 95 ≤ 95 ∧
    (enc (Nat.findGreatest (fun q => (enc q).length ≤ target_bytes) 95)).length ≤
      target_bytes ∧
    (∀ q, Nat.findGreatest (fun q => (enc q).length ≤ target_bytes) 95 < q → q ≤ 95 →
      target_bytes < (enc q).length) ∧
    (autoSearchGo enc target_bytes nw nh st 10 40 95 none none tr).1 =
      some (enc (Nat.findGreatest (fun q => (enc q).length ≤ target_bytes) 95), nw, nh,
        (enc (Nat.findGreatest (fun q => (enc q).length ≤ target_bytes) 95)).length) := by
  have hq40 : 40 ≤ Nat.findGreatest (fun q => (enc q).length ≤ target_bytes) 95 :=
    Nat.le_findGreatest (show (40 : Nat) ≤ 95 by omega) hacc
  have hq95 : Nat.findGreatest (fun q => (enc q).length ≤ target_bytes) 95 ≤ 95 :=
    Nat.findGreatest_le 95
  have hQP : (enc (Nat.findGreatest (fun q => (enc q).length ≤ target_bytes) 95)).length ≤
      target_bytes :=
    @Nat.findGreatest_spec 40 (fun q => (enc q).length ≤ target_bytes) _ 95
      (by omega) hacc
  have hQmax : ∀ q, Nat.findGreatest (fun q => (enc q).length ≤ target_bytes) 95 < q →
      q ≤ 95 → target_bytes < (enc q).length := by
    intro q h1 h2
    have h3 : ¬ (enc q).length ≤ target_bytes :=
      @Nat.findGreatest_is_greatest q (fun q => (enc q).length ≤ target_bytes) _ 95 h1 h2
    omega
  refine ⟨hq40, hq95, hQP, hQmax, ?_⟩
  exact autoGo_finds_max enc target_bytes nw nh st _ hmono hQP hQmax 10 40 95 none none tr
    (by omega) (by omega) (by omega) (by omega) hq95
    (by
      unfold BestOKAt
      exact Or.inl ⟨rfl, rfl⟩)
    (Or.inr ⟨by omega, by norm_num⟩)

/-- C2 (witness): for the strictly increasing encoder whose quality-`q`
output is `q` bytes and a 77-byte budget, the search returns exactly the
quality-77 encoding, via the search theorem at that concrete input. -/
theorem c2_binary_search_max_quality_witness :
    (autoSearchGo (fun q => List.replicate q 0) 77 640 480 10 10 40 95 none none []).1 =
      some (List.replicate 77 0, 640, 480, 77) := by
  have h := c2_binary_search_max_quality (fun q => List.replicate q 0) 77 640 480 10 []
    (fun q q' hq => by simpa using hq) (by simp)
  obtain ⟨-, -, -, -, h5⟩ := h
  simp only [List.length_replicate] at h5
  rw [show Nat.findGreatest (fun q => q ≤ 77) 95 = 77 from by decide] at h5
  exact h5

/-- C9: when the single manual-quality encode at scale 1.0 misses the budget
under `priority = "optimal_resolution"`, the fallback runs unconditionally:
it re-resizes to scale 0.5 (despite the never-resize priority) and encodes
at quality 40 (ignoring the caller's manual quality), appending the
could-not-reach-target warning. -/
theorem c9_fallback_unconditional (img : ImgInfo) (image_bytes : Bytes)
    (target_bytes mq : Nat) (max_dim : Option Nat) (se : Bool)
    (hsize : target_bytes < image_bytes.length)
    (henc : target_bytes < (img.encode WorkingImg.original ("JPEG") mq se).length) :
    compress_to_target img image_bytes target_bytes ("jpeg") max_dim ("manual")
      (some mq) ("optimal_resolution") se =
      (img.encode (WorkingImg.resized
          (calculate_resize_dimensions img.width img.height max_dim 5).1
          (calculate_resize_dimensions img.width img.height max_dim 5).2) ("JPEG") 40 se,
        (calculate_resize_dimensions img.width img.height max_dim 5).1,
        (calculate_resize_dimensions img.width img.height max_dim 5).2,
        ("JPEG"), [fallbackWarning]) := by
  have hcf : choose_output_format img.mode img.transparencyInfo (originalFormat img)
      target_bytes image_bytes.length ("jpeg") = (("JPEG"), []) := by
    unfold choose_output_format
    rw [if_pos (by decide : ("jpeg" : String) ≠ "auto")]
    rfl
  have hloop : scaleLoop img target_bytes ("JPEG") max_dim ("manual") (some mq)
      ("optimal_resolution") se [10] ⟨none, none, none, []⟩ =
      ⟨none, none, none,
        [⟨10, mq, (img.encode WorkingImg.original ("JPEG") mq se).length⟩]⟩ := by
    simp only [scaleLoop]
    simp [Nat.not_le.mpr henc]
  simp only [compress_to_target, compressRun, hcf]
  simp [Nat.not_le.mpr hsize, hloop]

/-- C9 (witness): a concrete run in manual mode with
`priority = "optimal_resolution"` whose only probe misses the target
returns the half-scale quality-40 encoding, via the fallback theorem. -/
theorem c9_fallback_unconditional_witness :
    compress_to_target ⟨100, 80, ("RGB"), false, some ("PNG"), fun _ _ q _ =>
        List.replicate 50 q⟩ (List.replicate 60 0) 30 ("jpeg") none ("manual")
      (some 80) ("optimal_resolution") false =
      (List.replicate 50 40, 50, 40, ("JPEG"), [fallbackWarning]) := by
  have h := c9_fallback_unconditional ⟨100, 80, ("RGB"), false, some ("PNG"),
    fun _ _ q _ => List.replicate 50 q⟩ (List.replicate 60 0) 30 80 none false
    (by decide) (by decide)
  rw [h]
  decide

/-- C5 (amended): under `priority = "target_size"` the 5% stopping rule is
checked after each scale only in the auto-quality path for lossy formats:
there, once the state after a scale satisfies it, no further scale runs.  In
manual mode (with a quality provided) no early stop is checked at all —
every scale in the list is probed exactly once. -/
theorem c5_stop_rule_scope :
    (∀ (img : ImgInfo) (t : Nat) (cf : String) (md : Option Nat) (qm : String)
      (mq : Option Nat) (se : Bool) (k : Nat) (rest : List Nat) (s : SState),
      (cf = "JPEG" ∨ cf = "WEBP") →
      ¬ (qm = "manual" ∧ mq ≠ none) →
      stopClose (scaleLoop img t cf md qm mq ("target_size") se [k] s).bestDist t →
      scaleLoop img t cf md qm mq ("target_size") se (k :: rest) s =
        scaleLoop img t cf md qm mq ("target_size") se [k] s) ∧
    (∀ (img : ImgInfo) (t : Nat) (cf : String) (md : Option Nat) (q : Nat)
      (prio : String) (se : Bool) (scales : List Nat) (s : SState),
      (cf = "JPEG" ∨ cf = "WEBP") →
      (scaleLoop img t cf md ("manual") (some q) prio se scales s).trace.length =
        s.trace.length + scales.length) := by
  constructor
  · intro img t cf md qm mq se k rest s hcf hqm
    simp only [scaleLoop]
    rw [if_pos hcf, if_pos hcf, if_neg hqm, if_neg hqm]
    simp only [scaleLoop, ite_self, true_and, false_and, if_false]
    intro hstop
    rw [if_pos hstop]
  · intro img t cf md q prio se scales
    induction scales with
    | nil => intro s _; simp [scaleLoop]
    | cons k rest ih =>
        intro s hcf
        simp only [scaleLoop]
        rw [if_pos hcf]
        rw [if_pos (show True ∧ some q ≠ none from ⟨trivial, by simp⟩)]
        rw [ih _ hcf]
        split_ifs with hupd <;>
          · dsimp only
            simp
            omega

set_option maxRecDepth 8000 in
/-- C5 (witness): concrete instantiations of both parts — an auto run whose
first scale already lands within 5% stops there, and a six-scale manual run
probes exactly six times. -/
theorem c5_stop_rule_scope_witness :
    scaleLoop ⟨640, 480, ("RGB"), false, some ("PNG"), fun _ _ _ _ =>
        List.replicate 990 0⟩ 1000 ("JPEG") none ("auto") none ("target_size") false
      [10, 9, 8, 7, 6, 5] ⟨none, none, none, []⟩ =
      scaleLoop ⟨640, 480, ("RGB"), false, some ("PNG"), fun _ _ _ _ =>
        List.replicate 990 0⟩ 1000 ("JPEG") none ("auto") none ("target_size") false
      [10] ⟨none, none, none, []⟩ ∧
    (scaleLoop ⟨640, 480, ("RGB"), false, some ("PNG"), fun _ _ _ _ =>
        List.replicate 990 0⟩ 1000 ("JPEG") none ("manual") (some 80) ("target_size")
      false [10, 9, 8, 7, 6, 5] ⟨none, none, none, []⟩).trace.length = 6 := by
  constructor
  · exact c5_stop_rule_scope.1 ⟨640, 480, ("RGB"), false, some ("PNG"), fun _ _ _ _ =>
      List.replicate 990 0⟩ 1000 ("JPEG") none ("auto") none false 10 [9, 8, 7, 6, 5]
      ⟨none, none, none, []⟩ (Or.inl rfl) (by simp) (by decide)
  · have h := c5_stop_rule_scope.2 ⟨640, 480, ("RGB"), false, some ("PNG"),
      fun _ _ _ _ => List.replicate 990 0⟩ 1000 ("JPEG") none 80 ("target_size") false
      [10, 9, 8, 7, 6, 5] ⟨none, none, none, []⟩ (Or.inl rfl)
    simpa using h

/-- Helper for C1: the per-scale binary search only ever records an
acceptable probe (with synchronised length and distance), it returns `none`
exactly when it started empty and every probe it appended was over budget,
and its trace only grows. -/
theorem autoGo_best_facts (enc : Nat → Bytes) (target_bytes nw nh st : Nat) :
    ∀ (fuel low high : Nat) (best : Option (Bytes × Nat × Nat × Nat))
      (bestDist : Option Nat) (tr : List Probe),
      (∀ b w h sz, best = some (b, w, h, sz) →
        b.length = sz ∧ sz ≤ target_bytes ∧ bestDist = some (target_bytes - sz)) →
      (best = none → bestDist = none) →
      ∃ added,
        (autoSearchGo enc target_bytes nw nh st fuel low high best bestDist tr).2.2 =
          tr ++ added ∧
        (∀ b w h sz,
          (autoSearchGo enc target_bytes nw nh st fuel low high best bestDist tr).1 =
            some (b, w, h, sz) →
          b.length = sz ∧ sz ≤ target_bytes ∧
          (autoSearchGo enc target_bytes nw nh st fuel low high best bestDist tr).2.1 =
            some (target_bytes - sz) ∧
          ((∃ p ∈ added, p.size ≤ target_bytes) ∨ best = some (b, w, h, sz))) ∧
        ((autoSearchGo enc target_bytes nw nh st fuel low high best bestDist tr).1 = none →
          best = none ∧
          (autoSearchGo enc target_bytes nw nh st fuel low high best bestDist tr).2.1 =
            none ∧
          ∀ p ∈ added, target_bytes < p.size) := by
  intro fuel
  induction fuel with
  | zero =>
      intro low high best bestDist tr hbest hnone
      refine ⟨[], by simp [autoSearchGo], ?_, ?_⟩
      · intro b w h sz heq
        simp only [autoSearchGo] at heq
        obtain ⟨h1, h2, h3⟩ := hbest b w h sz heq
        exact ⟨h1, h2, h3, Or.inr heq⟩
      · intro h0
        simp only [autoSearchGo] at h0 ⊢
        exact ⟨h0, hnone h0, by simp⟩
  | succ fuel ih =>
      intro low high best bestDist tr hbest hnone
      simp only [autoSearchGo]
      by_cases hsz : (enc ((low + high) / 2)).length ≤ target_bytes
      · rw [if_pos hsz]
        by_cases hlt : ltInf (target_bytes - (enc ((low + high) / 2)).length) bestDist
        · rw [if_pos hlt]
          obtain ⟨added, ha1, ha2, ha3⟩ := ih ((low + high) / 2 + 1) high
            (some (enc ((low + high) / 2), nw, nh, (enc ((low + high) / 2)).length))
            (some (target_bytes - (enc ((low + high) / 2)).length))
            (tr ++ [⟨st, (low + high) / 2, (enc ((low + high) / 2)).length⟩])
            (by
              intro b w h sz heq
              simp only [Option.some.injEq, Prod.mk.injEq] at heq
              obtain ⟨hb, -, -, hs⟩ := heq
              subst hb
              subst hs
              exact ⟨rfl, hsz, rfl⟩)
            (by intro h0; cases h0)
          refine ⟨⟨st, (low + high) / 2, (enc ((low + high) / 2)).length⟩ :: added,
            ?_, ?_, ?_⟩
          · rw [ha1, List.append_assoc]
            rfl
          · intro b w h sz heq
            obtain ⟨h1, h2, h3, h4⟩ := ha2 b w h sz heq
            refine ⟨h1, h2, h3, Or.inl ?_⟩
            rcases h4 with ⟨p, hp, hps⟩ | hbeq
            · exact ⟨p, List.mem_cons_of_mem _ hp, hps⟩
            · exact ⟨⟨st, (low + high) / 2, (enc ((low + high) / 2)).length⟩,
                List.mem_cons_self _ _, hsz⟩
          · intro h0
            obtain ⟨hbn, -, -⟩ := ha3 h0
            cases hbn
        · rw [if_neg hlt]
          obtain ⟨added, ha1, ha2, ha3⟩ := ih ((low + high) / 2 + 1) high best bestDist
            (tr ++ [⟨st, (low + high) / 2, (enc ((low + high) / 2)).length⟩])
            hbest hnone
          refine ⟨⟨st, (low + high) / 2, (enc ((low + high) / 2)).length⟩ :: added,
            ?_, ?_, ?_⟩
          · rw [ha1, List.append_assoc]
            rfl
          · intro b w h sz heq
            obtain ⟨h1, h2, h3, h4⟩ := ha2 b w h sz heq
            refine ⟨h1, h2, h3, ?_⟩
            rcases h4 with ⟨p, hp, hps⟩ | hbeq
            · exact Or.inl ⟨p, List.mem_cons_of_mem _ hp, hps⟩
            · exact Or.inr hbeq
          · intro h0
            obtain ⟨hbn, -, -⟩ := ha3 h0
            exact absurd (by rw [hnone hbn]; unfold ltInf; trivial) hlt
      · rw [if_neg hsz]
        obtain ⟨added, ha1, ha2, ha3⟩ := ih low ((low + high) / 2 - 1) best bestDist
          (tr ++ [⟨st, (low + high) / 2, (enc ((low + high) / 2)).length⟩])
          hbest hnone
        refine ⟨⟨st, (low + high) / 2, (enc ((low + high) / 2)).length⟩ :: added,
          ?_, ?_, ?_⟩
        · rw [ha1, List.append_assoc]
          rfl
        · intro b w h sz heq
          obtain ⟨h1, h2, h3, h4⟩ := ha2 b w h sz heq
          refine ⟨h1, h2, h3, ?_⟩
          rcases h4 with ⟨p, hp, hps⟩ | hbeq
          · exact Or.inl ⟨p, List.mem_cons_of_mem _ hp, hps⟩
          · exact Or.inr hbeq
        · intro h0
          obtain ⟨hbn, hdn, hbig⟩ := ha3 h0
          refine ⟨hbn, hdn, ?_⟩
          intro p hp
          rcases List.mem_cons.mp hp with hpe | hpm
          · subst hpe
            exact Nat.lt_of_not_le hsz
          · exact hbig p hpm

/-- Helper for C1: a state that only has its trace extended keeps `StateOK`,
as long as each new probe, when acceptable, already has budget-respecting
cover in the old state. -/
theorem StateOK_keep (t : Nat) (s : SState) (tr' : List Probe) (hs : StateOK t s)
    (hnew : ∀ p ∈ tr', p ∈ s.trace ∨
      (p.size ≤ t → ∃ sz, s.bestSize = some sz ∧ sz ≤ t)) :
    StateOK t ⟨s.best, s.bestSize, s.bestDist, tr'⟩ := by
  obtain ⟨hs1, hs2, hs3, hs4⟩ := hs
  refine ⟨hs1, hs2, hs3, ?_⟩
  rintro ⟨p, hp, hacc⟩
  rcases hnew p hp with hpo | hdirect
  · exact hs4 ⟨p, hpo, hacc⟩
  · exact hdirect hacc

/-- Helper for C1: `LossyOK` survives extending the trace. -/
theorem LossyOK_keep (t : Nat) (s : SState) (tr' : List Probe) (hl : LossyOK t s)
    (hsub : ∀ p ∈ s.trace, p ∈ tr') :
    LossyOK t ⟨s.best, s.bestSize, s.bestDist, tr'⟩ := by
  intro hbn
  obtain ⟨p, hp, hacc⟩ := hl hbn
  exact ⟨p, hsub p hp, hacc⟩

/-- Helper for C1 (lossy formats): the scale loop preserves the state
consistency invariant and the recorded-from-acceptable-probe invariant. -/
theorem scaleLoop_lossy_inv (img : ImgInfo) (t : Nat) (cf : String) (md : Option Nat)
    (qm : String) (mq : Option Nat) (prio : String) (se : Bool)
    (hcf : cf = "JPEG" ∨ cf = "WEBP") :
    ∀ (scales : List Nat) (s : SState), StateOK t s → LossyOK t s →
      StateOK t (scaleLoop img t cf md qm mq prio se scales s) ∧
      LossyOK t (scaleLoop img t cf md qm mq prio se scales s) := by
  intro scales
  induction scales with
  | nil => intro s hs hl; exact ⟨hs, hl⟩
  | cons k rest ih =>
      intro s hs hl
      simp only [scaleLoop]
      rw [if_pos hcf]
      generalize calculate_resize_dimensions img.width img.height md k = D
      generalize (if k < 10 then WorkingImg.resized D.1 D.2 else WorkingImg.original) = W
      by_cases hqm : qm = "manual" ∧ mq ≠ none
      · rw [if_pos hqm]
        refine ih _ ?_ ?_
        · split_ifs with hupd
          · refine ⟨?_, ?_, ?_, ?_⟩
            · intro h0
              simp at h0
            · intro b w h heq
              simp only [Option.some.injEq, Prod.mk.injEq] at heq
              obtain ⟨hb, -, -⟩ := heq
              exact ⟨_, rfl, by rw [← hb]⟩
            · intro d hd
              simp only [Option.some.injEq] at hd
              subst hd
              exact ⟨_, rfl, hupd.1, rfl⟩
            · intro _
              exact ⟨_, rfl, hupd.1⟩
          · refine StateOK_keep t s _ hs ?_
            intro p hp
            rcases List.mem_append.mp hp with hpo | hpn
            · exact Or.inl hpo
            · simp only [List.mem_singleton] at hpn
              subst hpn
              refine Or.inr ?_
              intro hacc
              have hnl : ¬ ltInf (t - (img.encode W cf (mq.getD 0) se).length)
                  s.bestDist := fun hli => hupd ⟨hacc, hli⟩
              rcases hdd : s.bestDist with _ | d'
              · rw [hdd] at hnl
                exact absurd (by unfold ltInf; trivial) hnl
              · obtain ⟨sz', hbs, hle, -⟩ := hs.2.2.1 d' hdd
                exact ⟨sz', hbs, hle⟩
        · split_ifs with hupd
          · intro _
            exact ⟨_, List.mem_append_right _ (List.mem_singleton_self _), hupd.1⟩
          · exact LossyOK_keep t s _ hl (fun p hp => List.mem_append_left _ hp)
      · rw [if_neg hqm]
        obtain ⟨added, ha1, ha2, ha3⟩ := autoGo_best_facts
          (fun q => img.encode W cf q se) t D.1 D.2 k 10 40 95 none none s.trace
          (by intro b w h sz heq; exact Option.noConfusion heq)
          (fun _ => rfl)
        rcases hres : (autoSearchGo (fun q => img.encode W cf q se) t D.1 D.2 k
            10 40 95 none none s.trace).1 with _ | ⟨c, w, h, sz⟩
        · simp only [hres]
          have hSL : StateOK t (⟨s.best, s.bestSize, s.bestDist,
                (autoSearchGo (fun q => img.encode W cf q se) t D.1 D.2 k
                  10 40 95 none none s.trace).2.2⟩ : SState) ∧
              LossyOK t (⟨s.best, s.bestSize, s.bestDist,
                (autoSearchGo (fun q => img.encode W cf q se) t D.1 D.2 k
                  10 40 95 none none s.trace).2.2⟩ : SState) := by
            constructor
            · refine StateOK_keep t s _ hs ?_
              intro p hp
              rw [ha1] at hp
              rcases List.mem_append.mp hp with hpo | hpn
              · exact Or.inl hpo
              · refine Or.inr ?_
                intro hacc
                obtain ⟨-, -, hbig⟩ := ha3 hres
                exact absurd hacc (Nat.not_le.mpr (hbig p hpn))
            · refine LossyOK_keep t s _ hl ?_
              intro p hp
              rw [ha1]
              exact List.mem_append_left _ hp
          split_ifs with hb1 hb2
          · exact hSL
          · exact hSL
          · exact ih _ hSL.1 hSL.2
        · obtain ⟨hlen, hszle, hdist, hdisj⟩ := ha2 c w h sz hres
          have hub : ∃ p ∈ added, p.size ≤ t := by
            rcases hdisj with hgood | hbad
            · exact hgood
            · exact Option.noConfusion hbad
          simp only [hres]
          by_cases hlt : ltInf (t - sz) s.bestDist
          · rw [if_pos hlt]
            have hSL : StateOK t (⟨some (c, w, h), some sz,
                  (autoSearchGo (fun q => img.encode W cf q se) t D.1 D.2 k
                    10 40 95 none none s.trace).2.1,
                  (autoSearchGo (fun q => img.encode W cf q se) t D.1 D.2 k
                    10 40 95 none none s.trace).2.2⟩ : SState) ∧
                LossyOK t (⟨some (c, w, h), some sz,
                  (autoSearchGo (fun q => img.encode W cf q se) t D.1 D.2 k
                    10 40 95 none none s.trace).2.1,
                  (autoSearchGo (fun q => img.encode W cf q se) t D.1 D.2 k
                    10 40 95 none none s.trace).2.2⟩ : SState) := by
              constructor
              · refine ⟨?_, ?_, ?_, ?_⟩
                · intro h0
                  simp at h0
                · intro b w' h' heq
                  simp only [Option.some.injEq, Prod.mk.injEq] at heq
                  obtain ⟨hb, -, -⟩ := heq
                  exact ⟨sz, rfl, by rw [← hb]; exact hlen⟩
                · intro d hd
                  rw [hdist] at hd
                  simp only [Option.some.injEq] at hd
                  subst hd
                  exact ⟨sz, rfl, hszle, rfl⟩
                · intro _
                  exact ⟨sz, rfl, hszle⟩
              · intro _
                obtain ⟨p, hp, hacc⟩ := hub
                exact ⟨p, by rw [ha1]; exact List.mem_append_right _ hp, hacc⟩
            split_ifs with hb1 hb2
            · exact hSL
            · exact hSL
            · exact ih _ hSL.1 hSL.2
          · rw [if_neg hlt]
            have hSL : StateOK t (⟨s.best, s.bestSize, s.bestDist,
                  (autoSearchGo (fun q => img.encode W cf q se) t D.1 D.2 k
                    10 40 95 none none s.trace).2.2⟩ : SState) ∧
                LossyOK t (⟨s.best, s.bestSize, s.bestDist,
                  (autoSearchGo (fun q => img.encode W cf q se) t D.1 D.2 k
                    10 40 95 none none s.trace).2.2⟩ : SState) := by
              constructor
              · refine StateOK_keep t s _ hs ?_
                intro p hp
                rw [ha1] at hp
                rcases List.mem_append.mp hp with hpo | hpn
                · exact Or.inl hpo
                · refine Or.inr ?_
                  intro hacc
                  rcases hdd : s.bestDist with _ | d'
                  · rw [hdd] at hlt
                    exact absurd (by unfold ltInf; trivial) hlt
                  · obtain ⟨sz', hbs, hle, -⟩ := hs.2.2.1 d' hdd
                    exact ⟨sz', hbs, hle⟩
              · refine LossyOK_keep t s _ hl ?_
                intro p hp
                rw [ha1]
                exact List.mem_append_left _ hp
            split_ifs with hb1 hb2
            · exact hSL
            · exact hSL
            · exact ih _ hSL.1 hSL.2

/-- Helper for C1 (lossless formats): the scale loop preserves the state
consistency invariant, and it never sets a distance (the lossless branch
leaves `best_distance_from_target` untouched). -/
theorem scaleLoop_png_inv (img : ImgInfo) (t : Nat) (cf : String) (md : Option Nat)
    (qm : String) (mq : Option Nat) (prio : String) (se : Bool)
    (hcf : ¬ (cf = "JPEG" ∨ cf = "WEBP")) :
    ∀ (scales : List Nat) (s : SState), StateOK t s → s.bestDist = none →
      StateOK t (scaleLoop img t cf md qm mq prio se scales s) ∧
      (scaleLoop img t cf md qm mq prio se scales s).bestDist = none := by
  intro scales
  induction scales with
  | nil => intro s hs hdn; exact ⟨hs, hdn⟩
  | cons k rest ih =>
      intro s hs hdn
      simp only [scaleLoop]
      rw [if_neg hcf]
      generalize calculate_resize_dimensions img.width img.height md k = D
      generalize (if k < 10 then WorkingImg.resized D.1 D.2 else WorkingImg.original) = W
      have hS' : StateOK t (if ltInf (img.encode W cf 95 se).length s.bestSize then
            (⟨some (img.encode W cf 95 se, D.1, D.2), some (img.encode W cf 95 se).length,
              s.bestDist, s.trace ++ [⟨k, 95, (img.encode W cf 95 se).length⟩]⟩ : SState)
          else ⟨s.best, s.bestSize, s.bestDist,
            s.trace ++ [⟨k, 95, (img.encode W cf 95 se).length⟩]⟩) ∧
          (if ltInf (img.encode W cf 95 se).length s.bestSize then
            (⟨some (img.encode W cf 95 se, D.1, D.2), some (img.encode W cf 95 se).length,
              s.bestDist, s.trace ++ [⟨k, 95, (img.encode W cf 95 se).length⟩]⟩ : SState)
          else ⟨s.best, s.bestSize, s.bestDist,
            s.trace ++ [⟨k, 95, (img.encode W cf 95 se).length⟩]⟩).bestDist = none := by
        split_ifs with hupd
        · refine ⟨⟨?_, ?_, ?_, ?_⟩, hdn⟩
          · intro h0
            simp at h0
          · intro b w h heq
            simp only [Option.some.injEq, Prod.mk.injEq] at heq
            obtain ⟨hb, -, -⟩ := heq
            exact ⟨_, rfl, by rw [← hb]⟩
          · intro d hd
            rw [hdn] at hd
            cases hd
          · rintro ⟨p, hp, hacc⟩
            rcases List.mem_append.mp hp with hpo | hpn
            · obtain ⟨sz'', hbs'', hle''⟩ := hs.2.2.2 ⟨p, hpo, hacc⟩
              rw [hbs''] at hupd
              have : (img.encode W cf 95 se).length < sz'' := hupd
              exact ⟨_, rfl, by omega⟩
            · simp only [List.mem_singleton] at hpn
              subst hpn
              exact ⟨_, rfl, hacc⟩
        · refine ⟨StateOK_keep t s _ hs ?_, hdn⟩
          intro p hp
          rcases List.mem_append.mp hp with hpo | hpn
          · exact Or.inl hpo
          · simp only [List.mem_singleton] at hpn
            subst hpn
            refine Or.inr ?_
            intro hacc
            rcases hbb : s.bestSize with _ | sz''
            · rw [hbb] at hupd
              exact absurd (by unfold ltInf; trivial) hupd
            · rw [hbb] at hupd
              have h1 : sz'' ≤ (img.encode W cf 95 se).length := Nat.le_of_not_lt hupd
              have h2 : (img.encode W cf 95 se).length ≤ t := hacc
              exact ⟨sz'', rfl, by omega⟩
      by_cases hbr : (img.encode W cf 95 se).length ≤ t
      · rw [if_pos hbr]
        exact hS'
      · rw [if_neg hbr]
        exact ih _ hS'.1 hS'.2

/-- C1 (amended): whenever some probe of the run (any scale/quality actually
explored) fits the budget, the returned payload fits the budget; and for
lossy chosen formats, when the pass-through does not apply and no probe fit,
the result is exactly the 0.5-scale quality-40 fallback with the
could-not-reach-target warning appended.  (The lossless path never falls
back: it keeps its smallest over-budget encoding, as the counterexample
shows.) -/
theorem c1_target_or_lossy_fallback (img : ImgInfo) (image_bytes : Bytes)
    (target_bytes : Nat) (output_format : String) (max_dim : Option Nat)
    (quality_mode : String) (manual_quality : Option Nat) (priority : String)
    (se : Bool) :
    ((∃ p ∈ (compressRun img image_bytes target_bytes output_format max_dim
        quality_mode manual_quality priority se).trace, p.size ≤ target_bytes) →
      (compressRun img image_bytes target_bytes output_format max_dim quality_mode
        manual_quality priority se).bytes.length ≤ target_bytes) ∧
    (((choose_output_format img.mode img.transparencyInfo (originalFormat img)
        target_bytes image_bytes.length output_format).1 = "JPEG" ∨
      (choose_output_format img.mode img.transparencyInfo (originalFormat img)
        target_bytes image_bytes.length output_format).1 = "WEBP") →
      ¬ (image_bytes.length ≤ target_bytes ∧
        (choose_output_format img.mode img.transparencyInfo (originalFormat img)
          target_bytes image_bytes.length output_format).1 =
          pyUpper (originalFormat img)) →
      (∀ p ∈ (compressRun img image_bytes target_bytes output_format max_dim
        quality_mode manual_quality priority se).trace, target_bytes < p.size) →
      (compressRun img image_bytes target_bytes output_format max_dim quality_mode
        manual_quality priority se).bytes =
        img.encode (WorkingImg.resized
          (calculate_resize_dimensions img.width img.height max_dim 5).1
          (calculate_resize_dimensions img.width img.height max_dim 5).2)
          (choose_output_format img.mode img.transparencyInfo (originalFormat img)
            target_bytes image_bytes.length output_format).1 40 se ∧
      (compressRun img image_bytes target_bytes output_format max_dim quality_mode
        manual_quality priority se).width =
        (calculate_resize_dimensions img.width img.height max_dim 5).1 ∧
      (compressRun img image_bytes target_bytes output_format max_dim quality_mode
        manual_quality priority se).height =
        (calculate_resize_dimensions img.width img.height max_dim 5).2 ∧
      (compressRun img image_bytes target_bytes output_format max_dim quality_mode
        manual_quality priority se).warnings =
        (choose_output_format img.mode img.transparencyInfo (originalFormat img)
          target_bytes image_bytes.length output_format).2 ++ [fallbackWarning]) := by
  have hs0 : StateOK target_bytes ⟨none, none, none, []⟩ := by
    refine ⟨fun _ => ⟨rfl, rfl⟩, ?_, ?_, ?_⟩
    · intro b w h h0
      exact Option.noConfusion h0
    · intro d h0
      exact Option.noConfusion h0
    · rintro ⟨p, hp, -⟩
      exact absurd hp (List.not_mem_nil p)
  have hl0 : LossyOK target_bytes ⟨none, none, none, []⟩ := fun h0 => absurd rfl h0
  simp only [compressRun]
  by_cases hpass : image_bytes.length ≤ target_bytes ∧
      (choose_output_format img.mode img.transparencyInfo (originalFormat img)
        target_bytes image_bytes.length output_format).1 = pyUpper (originalFormat img)
  · rw [if_pos hpass]
    constructor
    · rintro ⟨p, hp, -⟩
      simp at hp
    · intro _ hnp _
      exact absurd hpass hnp
  · rw [if_neg hpass]
    have hstate : StateOK target_bytes (scaleLoop img target_bytes
        (choose_output_format img.mode img.transparencyInfo (originalFormat img)
          target_bytes image_bytes.length output_format).1 max_dim quality_mode
        manual_quality priority se
        (if priority = "optimal_resolution" then [10] else [10, 9, 8, 7, 6, 5])
        ⟨none, none, none, []⟩) := by
      by_cases hcf : (choose_output_format img.mode img.transparencyInfo
          (originalFormat img) target_bytes image_bytes.length output_format).1 =
          "JPEG" ∨
          (choose_output_format img.mode img.transparencyInfo (originalFormat img)
            target_bytes image_bytes.length output_format).1 = "WEBP"
      · exact (scaleLoop_lossy_inv img target_bytes _ max_dim quality_mode
          manual_quality priority se hcf _ _ hs0 hl0).1
      · exact (scaleLoop_png_inv img target_bytes _ max_dim quality_mode
          manual_quality priority se hcf _ _ hs0 rfl).1
    have hlossy : ((choose_output_format img.mode img.transparencyInfo
        (originalFormat img) target_bytes image_bytes.length output_format).1 =
        "JPEG" ∨
        (choose_output_format img.mode img.transparencyInfo (originalFormat img)
          target_bytes image_bytes.length output_format).1 = "WEBP") →
        LossyOK target_bytes (scaleLoop img target_bytes
          (choose_output_format img.mode img.transparencyInfo (originalFormat img)
            target_bytes image_bytes.length output_format).1 max_dim quality_mode
          manual_quality priority se
          (if priority = "optimal_resolution" then [10] else [10, 9, 8, 7, 6, 5])
          ⟨none, none, none, []⟩) := fun hcf =>
      (scaleLoop_lossy_inv img target_bytes _ max_dim quality_mode manual_quality
        priority se hcf _ _ hs0 hl0).2
    generalize hSS : scaleLoop img target_bytes
        (choose_output_format img.mode img.transparencyInfo (originalFormat img)
          target_bytes image_bytes.length output_format).1 max_dim quality_mode
        manual_quality priority se
        (if priority = "optimal_resolution" then [10] else [10, 9, 8, 7, 6, 5])
        ⟨none, none, none, []⟩ = S
    rw [hSS] at hstate hlossy
    rcases hb : S.best with _ | ⟨b, bw, bh⟩
    · simp only [hb]
      constructor
      · rintro ⟨p, hp, hacc⟩
        obtain ⟨sz, hbs, -⟩ := hstate.2.2.2 ⟨p, hp, hacc⟩
        obtain ⟨hbs0, -⟩ := hstate.1 hb
        rw [hbs0] at hbs
        cases hbs
      · intro _ _ _
        exact ⟨trivial, trivial, trivial, trivial⟩
    · simp only [hb]
      constructor
      · rintro ⟨p, hp, hacc⟩
        obtain ⟨sz, hbs, hle⟩ := hstate.2.2.2 ⟨p, hp, hacc⟩
        obtain ⟨sz2, hbs2, hlen⟩ := hstate.2.1 b bw bh hb
        rw [hbs] at hbs2
        have hsz : sz = sz2 := Option.some.inj hbs2
        show b.length ≤ target_bytes
        omega
      · intro hcf _ hall
        obtain ⟨p, hp, hacc⟩ := hlossy hcf (by rw [hb]; simp)
        exact absurd hacc (Nat.not_le.mpr (hall p hp))

/-- C1 (witness): with everything acceptable the returned payload fits the
30-byte budget, and with nothing acceptable in a lossy run the returned
payload is the half-scale quality-40 fallback encoding, both via the C1
theorem at concrete inputs. -/
theorem c1_target_or_lossy_fallback_witness :
    (compressRun ⟨100, 80, ("RGB"), false, some ("PNG"), fun _ _ _ _ =>
        List.replicate 5 0⟩ (List.replicate 60 0) 30 ("jpeg") none ("auto") none
      ("target_size") false).bytes.length ≤ 30 ∧
    (compressRun ⟨100, 80, ("RGB"), false, some ("PNG"), fun _ _ q _ =>
        List.replicate 50 q⟩ (List.replicate 60 0) 25 ("jpeg") none ("auto") none
      ("target_size") false).bytes = List.replicate 50 40 := by
  constructor
  · exact (c1_target_or_lossy_fallback ⟨100, 80, ("RGB"), false, some ("PNG"),
      fun _ _ _ _ => List.replicate 5 0⟩ (List.replicate 60 0) 30 ("jpeg") none
      ("auto") none ("target_size") false).1 (by decide)
  · have h := (c1_target_or_lossy_fallback ⟨100, 80, ("RGB"), false, some ("PNG"),
      fun _ _ q _ => List.replicate 50 q⟩ (List.replicate 60 0) 25 ("jpeg") none
      ("auto") none ("target_size") false).2 (by decide) (by decide) (by decide)
    rw [h.1]
